import Mathlib

/-!
Verification of the ROUGE-L comparison harness (src/compare_rouge_l.py).

The development shallowly embeds the pure computational core of the script:
the result extractor `extract_results`, the differential comparator
(`compare_results` and the per-pair match classification), the per-level
aggregation performed in `main`, and the descriptive statistics printed by
`print_statistics`.  Text is modelled as `List Char`; Python floats parsed
from decimal literals are modelled exactly as rationals (`ℚ`); Python code
paths that can raise an exception are modelled with `Option`.
-/

namespace RougeCompare

/-- Characters treated as whitespace by Python `str.strip` / `str.split()`. -/
def isWS (c : Char) : Bool :=
  decide (c = ' ' ∨ c = '\t' ∨ c = '\n' ∨ c = '\r' ∨ c = '\x0b' ∨ c = '\x0c')

/-- Model of Python `str.lstrip()` on a character list. -/
def lstripWS (l : List Char) : List Char := l.dropWhile isWS

/-- Model of Python `str.rstrip()` on a character list. -/
def rstripWS (l : List Char) : List Char := (l.reverse.dropWhile isWS).reverse

/-- Model of Python `str.strip()` on a character list. -/
def pystrip (l : List Char) : List Char := rstripWS (lstripWS l)

/-- Model of Python `str.split('\n')`: splits at every newline and keeps
empty pieces, so the result is always nonempty. -/
def splitNl : List Char → List (List Char)
  | [] => [[]]
  | c :: rest =>
    if c = '\n' then [] :: splitNl rest
    else
      match splitNl rest with
      | [] => [[c]]
      | w :: ws => (c :: w) :: ws

/-- Accumulator-based worker for `splitWS`; `cur` holds the current word
reversed. -/
def splitWSAux (cur : List Char) : List Char → List (List Char)
  | [] => if cur.isEmpty then [] else [cur.reverse]
  | c :: rest =>
    if isWS c then
      if cur.isEmpty then splitWSAux [] rest else cur.reverse :: splitWSAux [] rest
    else splitWSAux (c :: cur) rest

/-- Model of Python `str.split()` with no argument: splits on runs of
whitespace and drops empty pieces. -/
def splitWS (l : List Char) : List (List Char) := splitWSAux [] l

/-- Boolean list-prefix test (model of Python `str.startswith`). -/
def isPrefixTok : List Char → List Char → Bool
  | [], _ => true
  | _ :: _, [] => false
  | p :: ps, c :: cs => decide (p = c) && isPrefixTok ps cs

/-- Boolean substring test (model of Python `pat in line`). -/
def containsTok (pat : List Char) : List Char → Bool
  | [] => pat.isEmpty
  | c :: rest => isPrefixTok pat (c :: rest) || containsTok pat rest

/-- Model of Python `line.split(pat, 1)` restricted to what the extractor
uses: the text before and after the first occurrence of `pat`, or `none`
when `pat` does not occur (in which case the Python code's `[1]` index
would raise). -/
def splitFirstTok (pat : List Char) : List Char → Option (List Char × List Char)
  | [] => if pat.isEmpty then some ([], []) else none
  | c :: rest =>
    if isPrefixTok pat (c :: rest) then some ([], (c :: rest).drop pat.length)
    else
      match splitFirstTok pat rest with
      | some pr => some (c :: pr.1, pr.2)
      | none => none

/-- Numeric value of an ASCII digit. -/
def digitVal (c : Char) : Nat := c.toNat - '0'.toNat

/-- Numeric value of a list of ASCII digits read left to right. -/
def digitsVal (l : List Char) : Nat := l.foldl (fun n c => 10 * n + digitVal c) 0

/-- Model of Python `int(token)` on a whitespace-free token: an optional
sign followed by at least one digit; anything else raises `ValueError`,
modelled as `none`. -/
def pyInt : List Char → Option Int
  | [] => none
  | '+' :: ds => if ds ≠ [] ∧ ds.all Char.isDigit then some (digitsVal ds : Int) else none
  | '-' :: ds => if ds ≠ [] ∧ ds.all Char.isDigit then some (-(digitsVal ds : Int)) else none
  | ds => if ds.all Char.isDigit then some (digitsVal ds : Int) else none

/-- Model of Python `token.rstrip(':')`: removes every trailing colon. -/
def rstripColons (l : List Char) : List Char :=
  (l.reverse.dropWhile (fun c => decide (c = ':'))).reverse

/-- The literal part of the level header pattern. -/
def levelLit : List Char := "Level ".data

/-- One attempted match of the pattern `Level (\d+): (.+)` at the head of
`l`: the literal `Level `, a nonempty greedy digit run, the literal `: `,
and a nonempty remainder of the line (the captured level name). -/
def matchLevelAt (l : List Char) : Option (Nat × List Char) :=
  if isPrefixTok levelLit l then
    let rest0 := l.drop levelLit.length
    let ds := rest0.takeWhile Char.isDigit
    let rest1 := rest0.dropWhile Char.isDigit
    if ds.isEmpty then none
    else
      match rest1 with
      | ':' :: ' ' :: c :: cs => some (digitsVal ds, c :: cs)
      | _ => none
  else none

/-- Model of `re.search(r'Level (\d+): (.+)', line)`: the leftmost position
where the pattern matches, returning the two captured groups. -/
def searchLevel : List Char → Option (Nat × List Char)
  | [] => none
  | c :: rest =>
    match matchLevelAt (c :: rest) with
    | some r => some r
    | none => searchLevel rest

/-- Scanner state for the decimal-number pattern `\d+\.\d+`: outside any
candidate match, inside the integer-part digit run, just past the dot, or
inside the fraction digit run (integer part, fraction value, fraction
length). -/
inductive ScanMode where
  | idle : ScanMode
  | intRun : Nat → ScanMode
  | dotSeen : Nat → ScanMode
  | fracRun : Nat → Nat → Nat → ScanMode
deriving DecidableEq

/-- Exact rational value of the decimal literal with integer part `ip` and
`fl`-digit fraction `fp`. -/
def floatOf (ip fp fl : Nat) : ℚ := (ip : ℚ) + (fp : ℚ) / ((10 : ℚ) ^ fl)

/-- Left-to-right scanner realising `re.findall(r'\d+\.\d+', line)` with
`float` applied to each match: leftmost, non-overlapping matches of
"one or more digits, a dot, one or more digits", each converted to its
exact rational value.  A non-digit ending a fraction run emits the match
and is then itself irrelevant to the idle state, so scanning resumes on
the remaining characters. -/
def scanFloats : ScanMode → List Char → List ℚ
  | ScanMode.idle, [] => []
  | ScanMode.intRun _, [] => []
  | ScanMode.dotSeen _, [] => []
  | ScanMode.fracRun ip fp fl, [] => [floatOf ip fp fl]
  | ScanMode.idle, c :: rest =>
    if c.isDigit then scanFloats (ScanMode.intRun (digitVal c)) rest
    else scanFloats ScanMode.idle rest
  | ScanMode.intRun ip, c :: rest =>
    if c.isDigit then scanFloats (ScanMode.intRun (10 * ip + digitVal c)) rest
    else if c = '.' then scanFloats (ScanMode.dotSeen ip) rest
    else scanFloats ScanMode.idle rest
  | ScanMode.dotSeen ip, c :: rest =>
    if c.isDigit then scanFloats (ScanMode.fracRun ip (digitVal c) 1) rest
    else scanFloats ScanMode.idle rest
  | ScanMode.fracRun ip fp fl, c :: rest =>
    if c.isDigit then scanFloats (ScanMode.fracRun ip (10 * fp + digitVal c) (fl + 1)) rest
    else floatOf ip fp fl :: scanFloats ScanMode.idle rest

/-- Model of `re.findall(r'\d+\.\d+', line)` followed by `float` on each
match, as used by the results branch of `extract_results`. -/
def findFloats (l : List Char) : List ℚ := scanFloats ScanMode.idle l

/-- One parsed result unit, mirroring the dict appended by
`extract_results`: running context fields (each possibly `None`) and the
numeric triple. -/
structure ScenarioResultRecord where
  example_num : Option Int
  level : Option Nat
  level_name : Option (List Char)
  candidate : Option (List Char)
  reference : Option (List Char)
  f_measure : ℚ
  precision : ℚ
  recall_val : ℚ
deriving DecidableEq

/-- The extractor's running context plus the accumulated results list. -/
structure ExtractState where
  current_example : Option Int
  current_level : Option Nat
  current_level_name : Option (List Char)
  current_candidate : Option (List Char)
  current_reference : Option (List Char)
  results : List ScenarioResultRecord
deriving DecidableEq

/-- Initial extractor state: every context field is `None`. -/
def initState : ExtractState := ⟨none, none, none, none, none, []⟩

/-- Guard of the first branch of `extract_results`:
`"Level" in line and ":" in line`. -/
def isLevelShape (l : List Char) : Bool :=
  containsTok "Level".data l && containsTok ":".data l

/-- Guard of the second branch: `line.startswith("Example")`. -/
def isExampleShape (l : List Char) : Bool := isPrefixTok "Example".data l

/-- Guard of the third branch: `line.strip().startswith("Candidate:")`. -/
def isCandShape (l : List Char) : Bool := isPrefixTok "Candidate:".data (pystrip l)

/-- Guard of the fourth branch: `line.strip().startswith("Reference:")`. -/
def isRefShape (l : List Char) : Bool := isPrefixTok "Reference:".data (pystrip l)

/-- Guard of the results branch: `"Result:" in line or "F-Measure:" in line`. -/
def isResultsShape (l : List Char) : Bool :=
  containsTok "Result:".data l || containsTok "F-Measure:".data l

/-- The record appended by the results branch, built from the current
running context and the first three extracted numbers. -/
def mkRecord (st : ExtractState) (a b c : ℚ) : ScenarioResultRecord :=
  ⟨st.current_example, st.current_level, st.current_level_name,
   st.current_candidate, st.current_reference, a, b, c⟩

/-- One iteration of the line loop of `extract_results`.  Returns `none`
exactly where the Python code raises: an `Example`-prefixed line without a
second whitespace token (IndexError) or whose second token is not an
integer after stripping trailing colons (ValueError), and the out-of-range
index after a failed `split` (which the guards make unreachable). -/
def processLine (st : ExtractState) (line : List Char) : Option ExtractState :=
  if isLevelShape line then
    match searchLevel line with
    | some nm =>
      some { st with current_level := some nm.1, current_level_name := some (pystrip nm.2) }
    | none => some st
  else if isExampleShape line then
    match splitWS line with
    | _ :: tok :: _ =>
      match pyInt (rstripColons tok) with
      | some n => some { st with current_example := some n }
      | none => none
    | _ => none
  else if isCandShape line then
    match splitFirstTok "Candidate:".data line with
    | some pr => some { st with current_candidate := some (pystrip pr.2) }
    | none => none
  else if isRefShape line then
    match splitFirstTok "Reference:".data line with
    | some pr => some { st with current_reference := some (pystrip pr.2) }
    | none => none
  else if isResultsShape line then
    match findFloats line with
    | a :: b :: c :: _ =>
      some { st with
              results := st.results ++ [mkRecord st a b c],
              current_candidate := none,
              current_reference := none }
    | _ => some st
  else some st

/-- The extractor's line loop. -/
def runLines : ExtractState → List (List Char) → Option ExtractState
  | st, [] => some st
  | st, l :: ls =>
    match processLine st l with
    | some st2 => runLines st2 ls
    | none => none

/-- The line list scanned by `extract_results`:
`output.strip().split('\n')`. -/
def pyLines (s : String) : List (List Char) := splitNl (pystrip s.data)

/-- Model of `extract_results(output)`: the ordered record list, or `none`
where the Python code raises. -/
def extract_results (s : String) : Option (List ScenarioResultRecord) :=
  Option.map (fun st => st.results) (runLines initState (pyLines s))

/-- The fixed absolute match tolerance `0.0001` used by the comparator. -/
def tol : ℚ := 1 / 10000

/-- Per-pair match classification of `compare_results`: all three absolute
differences strictly below the tolerance
(`f_diff < 0.0001 and p_diff < 0.0001 and r_diff < 0.0001`). -/
def matchedPair (a b : ScenarioResultRecord) : Bool :=
  decide (|a.f_measure - b.f_measure| < tol) &&
  decide (|a.precision - b.precision| < tol) &&
  decide (|a.recall_val - b.recall_val| < tol)

/-- The f-measure-only match test used when `main` builds `level_stats`:
`f_diff < 0.0001`. -/
def fMatched (a b : ScenarioResultRecord) : Bool :=
  decide (|a.f_measure - b.f_measure| < tol)

/-- The per-index match classifications produced inside the length-guarded
branch of `compare_results`; `none` when the lengths differ and the loop
never runs. -/
def compareClassifications (ja ra : List ScenarioResultRecord) :
    Option (List Bool) :=
  if ja.length = ra.length then
    some ((ja.zip ra).map (fun p => matchedPair p.1 p.2))
  else none

/-- The value returned by `compare_results` for the final report: the two
record lists when their lengths agree, and `([], [])` otherwise. -/
def compare_results (ja ra : List ScenarioResultRecord) :
    List ScenarioResultRecord × List ScenarioResultRecord :=
  if ja.length = ra.length then (ja, ra) else ([], [])

/-- The keys of `level_stats` in `main`, in first-appearance order: the
(possibly `None`) level of the Java-side record of each aligned pair. -/
def level_keys (pairs : List (ScenarioResultRecord × ScenarioResultRecord)) :
    List (Option Nat) :=
  (pairs.map (fun p => p.1.level)).dedup

/-- The `matched` counter of one `level_stats` entry: aligned pairs at that
level whose f-measures differ by less than the tolerance. -/
def levelMatched (pairs : List (ScenarioResultRecord × ScenarioResultRecord))
    (lv : Option Nat) : Nat :=
  (pairs.filter (fun p => decide (p.1.level = lv) && fMatched p.1 p.2)).length

/-- The `count` counter of one `level_stats` entry. -/
def levelCount (pairs : List (ScenarioResultRecord × ScenarioResultRecord))
    (lv : Option Nat) : Nat :=
  (pairs.filter (fun p => decide (p.1.level = lv))).length

/-- `total_matched` in `main`: the per-level `matched` counters summed over
all `level_stats` entries. -/
def total_matched (ja ra : List ScenarioResultRecord) : Nat :=
  ((level_keys (ja.zip ra)).map (fun lv => levelMatched (ja.zip ra) lv)).sum

/-- `total_examples` in `main`: the per-level `count` counters summed over
all `level_stats` entries. -/
def total_examples (ja ra : List ScenarioResultRecord) : Nat :=
  ((level_keys (ja.zip ra)).map (fun lv => levelCount (ja.zip ra) lv)).sum

/-- `overall_match_rate` in `main`:
`total_matched / total_examples * 100` when any example was counted,
`0.0` otherwise. -/
def overall_match_rate (ja ra : List ScenarioResultRecord) : ℚ :=
  if 0 < total_examples ja ra then
    (total_matched ja ra : ℚ) / (total_examples ja ra : ℚ) * 100
  else 0

/-- Model of Python `statistics.mean`. -/
def pymean (l : List ℚ) : ℚ := l.sum / (l.length : ℚ)

/-- Ascending sort, as performed internally by `statistics.median`. -/
def sortQ (l : List ℚ) : List ℚ := l.insertionSort (· ≤ ·)

/-- Model of Python `statistics.median`: the middle element of the sorted
data for odd length, the average of the two middle elements for even
length.  (Python raises on empty data; `print_statistics` only calls this
on nonempty data, so the `0` default of `getD` is never exercised.) -/
def pymedian (l : List ℚ) : ℚ :=
  if l.length % 2 = 1 then (sortQ l).getD (l.length / 2) 0
  else ((sortQ l).getD (l.length / 2 - 1) 0 + (sortQ l).getD (l.length / 2) 0) / 2

/-- Model of Python `min` on a list (0 on empty, where Python raises;
`print_statistics` only calls this on nonempty data). -/
def pymin : List ℚ → ℚ
  | [] => 0
  | x :: xs => xs.foldl min x

/-- Model of Python `max` on a list (0 on empty, as for `pymin`). -/
def pymax : List ℚ → ℚ
  | [] => 0
  | x :: xs => xs.foldl max x

/-- The sample variance `sum((x - mean)^2) / (n - 1)`.  Python's
`statistics.stdev` is its square root; only the presence or absence of the
statistic matters to the properties below, so the (irrational) square root
itself is not modelled. -/
def sampleVar (l : List ℚ) : ℚ :=
  ((l.map (fun x => (x - pymean l) ^ 2)).sum) / ((l.length : ℚ) - 1)

/-- The statistics block printed by `print_statistics` for a nonempty
sample list; `stdevSq` holds the squared standard deviation and is present
exactly when the code prints the standard-deviation line. -/
structure PerfStats where
  count : Nat
  mean : ℚ
  median : ℚ
  min : ℚ
  max : ℚ
  stdevSq : Option ℚ
deriving DecidableEq

/-- Model of `print_statistics(times, language)`: `none` renders the
explicit "No valid ... execution times recorded." state; otherwise the
printed statistics, with the standard deviation present only when
`len(times) > 1`. -/
def print_statistics (times : List ℚ) : Option PerfStats :=
  if times.isEmpty then none
  else
    some { count := times.length
           mean := pymean times
           median := pymedian times
           min := pymin times
           max := pymax times
           stdevSq := if 1 < times.length then some (sampleVar times) else none }

/-- The shape of `main` relevant to the comparison phase: the two
performance-statistics blocks are computed from the timing samples before
`compare_results` runs and do not depend on the extraction results. -/
def mainPerfAndComparison (javaTimes rustTimes : List ℚ)
    (ja ra : List ScenarioResultRecord) :
    (Option PerfStats × Option PerfStats) ×
      (List ScenarioResultRecord × List ScenarioResultRecord) :=
  ((print_statistics javaTimes, print_statistics rustTimes), compare_results ja ra)

/-- A results-bearing line that reaches the results branch of the line
loop: it matches none of the four earlier shapes and carries a
`Result:` or `F-Measure:` label. -/
def reachesResults (l : List Char) : Bool :=
  !isLevelShape l && !isExampleShape l && !isCandShape l && !isRefShape l &&
    isResultsShape l

/-- A results line that also yields at least three decimal numbers, and
hence emits a record. -/
def qualifies (l : List Char) : Bool :=
  reachesResults l && decide (3 ≤ (findFloats l).length)

/-- A line that reaches the `Example` branch of the line loop. -/
def reachesExample (l : List Char) : Bool :=
  !isLevelShape l && isExampleShape l

/-- An `Example` line the Python code parses without raising: it has a
second whitespace token that is an integer after stripping trailing
colons. -/
def exampleOk (l : List Char) : Bool :=
  match splitWS l with
  | _ :: tok :: _ => (pyInt (rstripColons tok)).isSome
  | _ => false

theorem isPrefixTok_iff (p : List Char) : ∀ l, isPrefixTok p l = true ↔ p <+: l := by
  induction p with
  | nil => intro l; simp [isPrefixTok]
  | cons a ps ih =>
    intro l
    cases l with
    | nil => simp [isPrefixTok]
    | cons c cs => simp [isPrefixTok, List.cons_prefix_cons, ih]

theorem containsTok_append (p t : List Char) (hp : p <+: t) :
    ∀ pre, containsTok p (pre ++ t) = true := by
  intro pre
  induction pre with
  | nil =>
    simp only [List.nil_append]
    cases t with
    | nil =>
      have : p = [] := List.prefix_nil.mp hp
      simp [this, containsTok]
    | cons c cs =>
      simp [containsTok, (isPrefixTok_iff p (c :: cs)).mpr hp]
  | cons a pre ih =>
    simp [containsTok, ih]

theorem splitFirstTok_isSome (p : List Char) :
    ∀ l, containsTok p l = true → (splitFirstTok p l).isSome = true := by
  intro l
  induction l with
  | nil =>
    intro h
    simp only [containsTok, List.isEmpty_iff] at h
    simp [splitFirstTok, h]
  | cons c cs ih =>
    intro h
    simp only [containsTok, Bool.or_eq_true] at h
    by_cases hpre : isPrefixTok p (c :: cs) = true
    · simp [splitFirstTok, hpre]
    · have h2 : containsTok p cs = true := by
        rcases h with h | h
        · exact absurd h hpre
        · exact h
      have := ih h2
      simp only [splitFirstTok, hpre, if_false]
      cases hs : splitFirstTok p cs with
      | none => rw [hs] at this; simp at this
      | some pr => simp

theorem prefixFact_rstripWS (m : List Char) : rstripWS m <+: m := by
  have h1 : m.reverse.dropWhile isWS <:+ m.reverse := List.dropWhile_suffix isWS
  have h2 : (rstripWS m).reverse <:+ m.reverse := by
    simpa [rstripWS] using h1
  exact List.reverse_suffix.mp h2

theorem contains_of_prefix_pystrip (p l : List Char)
    (h : isPrefixTok p (pystrip l) = true) : containsTok p l = true := by
  have hp1 : p <+: pystrip l := (isPrefixTok_iff p (pystrip l)).mp h
  have hp2 : p <+: lstripWS l := hp1.trans (prefixFact_rstripWS (lstripWS l))
  have hs : lstripWS l <:+ l := List.dropWhile_suffix isWS
  obtain ⟨pre, hpre⟩ := hs
  rw [← hpre]
  exact containsTok_append p (lstripWS l) hp2 pre

theorem processLine_results (st : ExtractState) (l : List Char) (st2 : ExtractState)
    (h : processLine st l = some st2) :
    st2.results.length = st.results.length + (if qualifies l then 1 else 0) := by
  unfold processLine at h
  split at h
  next h1 =>
    have hq : qualifies l = false := by simp [qualifies, reachesResults, h1]
    rw [hq]
    split at h <;>
      (simp only [Option.some.injEq] at h; subst h; simp)
  next h1 =>
    split at h
    next h2 =>
      have hq : qualifies l = false := by simp [qualifies, reachesResults, h2]
      rw [hq]
      split at h
      · split at h
        · simp only [Option.some.injEq] at h; subst h; simp
        · simp at h
      · simp at h
    next h2 =>
      split at h
      next h3 =>
        have hq : qualifies l = false := by simp [qualifies, reachesResults, h3]
        rw [hq]
        split at h
        · simp only [Option.some.injEq] at h; subst h; simp
        · simp at h
      next h3 =>
        split at h
        next h4 =>
          have hq : qualifies l = false := by simp [qualifies, reachesResults, h4]
          rw [hq]
          split at h
          · simp only [Option.some.injEq] at h; subst h; simp
          · simp at h
        next h4 =>
          split at h
          next h5 =>
            split at h
            next a b c tail hf =>
              have hq : qualifies l = true := by
                simp [qualifies, reachesResults, h1, h2, h3, h4, h5, hf]
              rw [hq]
              simp only [Option.some.injEq] at h; subst h; simp
            next hf =>
              have hq : qualifies l = false := by
                rcases hff : findFloats l with _ | ⟨a, _ | ⟨b, _ | ⟨c, t⟩⟩⟩
                · simp [qualifies, hff]
                · simp [qualifies, hff]
                · simp [qualifies, hff]
                · exact absurd hff (hf a b c t)
              rw [hq]
              simp only [Option.some.injEq] at h; subst h; simp
          next h5 =>
            have hq : qualifies l = false := by
              simp [qualifies, reachesResults, h5]
            rw [hq]
            simp only [Option.some.injEq] at h; subst h; simp

theorem processLine_some (st : ExtractState) (l : List Char)
    (hex : reachesExample l = true → exampleOk l = true) :
    (processLine st l).isSome = true := by
  unfold processLine
  split
  next h1 =>
    split <;> simp
  next h1 =>
    split
    next h2 =>
      have h1f : isLevelShape l = false := by
        revert h1; cases isLevelShape l <;> simp
      have hok : exampleOk l = true := hex (by simp [reachesExample, h1f, h2])
      unfold exampleOk at hok
      split
      next w tok rest hw =>
        rw [hw] at hok
        have hok2 : (pyInt (rstripColons tok)).isSome = true := hok
        cases hi : pyInt (rstripColons tok) with
        | none => rw [hi] at hok2; simp at hok2
        | some n => simp
      next hw =>
        rcases hsw : splitWS l with _ | ⟨w, _ | ⟨tok, rest⟩⟩
        · rw [hsw] at hok; simp at hok
        · rw [hsw] at hok; simp at hok
        · exact absurd hsw (hw w tok rest)
    next h2 =>
      split
      next h3 =>
        have hc : containsTok "Candidate:".data l = true :=
          contains_of_prefix_pystrip _ l h3
        have := splitFirstTok_isSome "Candidate:".data l hc
        cases hs : splitFirstTok "Candidate:".data l with
        | none => rw [hs] at this; simp at this
        | some pr => simp
      next h3 =>
        split
        next h4 =>
          have hc : containsTok "Reference:".data l = true :=
            contains_of_prefix_pystrip _ l h4
          have := splitFirstTok_isSome "Reference:".data l hc
          cases hs : splitFirstTok "Reference:".data l with
          | none => rw [hs] at this; simp at this
          | some pr => simp
        next h4 =>
          split
          next h5 => split <;> simp
          next h5 => simp

theorem runLines_some (ls : List (List Char)) :
    ∀ st, (∀ l ∈ ls, reachesExample l = true → exampleOk l = true) →
      (runLines st ls).isSome = true := by
  induction ls with
  | nil => intro st _; simp [runLines]
  | cons l ls ih =>
    intro st hall
    have h1 := processLine_some st l (hall l (List.mem_cons_self l ls))
    simp only [runLines]
    cases hp : processLine st l with
    | none => rw [hp] at h1; simp at h1
    | some stm =>
      exact ih stm (fun x hx => hall x (List.mem_cons_of_mem l hx))

theorem runLines_results (ls : List (List Char)) :
    ∀ st st2, runLines st ls = some st2 →
      st2.results.length = st.results.length + (ls.filter qualifies).length := by
  induction ls with
  | nil =>
    intro st st2 h
    simp only [runLines] at h
    cases h; simp
  | cons l ls ih =>
    intro st st2 h
    simp only [runLines] at h
    cases hp : processLine st l with
    | none => rw [hp] at h; cases h
    | some stm =>
      rw [hp] at h
      have h1 := ih stm st2 h
      have h2 := processLine_results st l stm hp
      by_cases hq : qualifies l = true <;>
        simp [List.filter_cons, hq] at h2 ⊢ <;> omega

theorem length_filter_split {α : Type} (l : List α) (q p : α → Bool) :
    (l.filter p).length =
      (l.filter (fun a => q a && p a)).length +
        (l.filter (fun a => !q a && p a)).length := by
  induction l with
  | nil => simp
  | cons a t ih =>
    by_cases hq : q a = true <;> by_cases hp : p a = true <;>
      simp [List.filter_cons, hq, hp, ih] <;> omega

theorem sum_keyed {α κ : Type} [DecidableEq κ] (l : List α) (key : α → κ) :
    ∀ (ks : List κ) (P : α → Bool), ks.Nodup →
      (∀ a ∈ l, P a = true → key a ∈ ks) →
      ((ks.map (fun k => (l.filter (fun a => decide (key a = k) && P a)).length)).sum
        = (l.filter P).length) := by
  intro ks
  induction ks with
  | nil =>
    intro P _ hcov
    have hnil : l.filter P = [] :=
      List.filter_eq_nil_iff.mpr (fun a ha hP => absurd (hcov a ha hP) (List.not_mem_nil _))
    simp [hnil]
  | cons k ks ih =>
    intro P hnd hcov
    have hkn : k ∉ ks := (List.nodup_cons.mp hnd).1
    have hnd2 : ks.Nodup := (List.nodup_cons.mp hnd).2
    rw [List.map_cons, List.sum_cons, length_filter_split l (fun a => decide (key a = k)) P]
    have hcov2 : ∀ a ∈ l, (!decide (key a = k) && P a) = true → key a ∈ ks := by
      intro a ha hP
      simp only [Bool.and_eq_true, Bool.not_eq_true', decide_eq_false_iff_not] at hP
      have := hcov a ha hP.2
      rcases List.mem_cons.mp this with h | h
      · exact absurd h hP.1
      · exact h
    have hih := ih (fun a => !decide (key a = k) && P a) hnd2 hcov2
    have hmap : (ks.map (fun x =>
        (l.filter (fun a => decide (key a = x) && P a)).length)) =
        (ks.map (fun x =>
          (l.filter (fun a => decide (key a = x) && (!decide (key a = k) && P a))).length)) := by
      apply List.map_congr_left
      intro x hx
      congr 1
      apply List.filter_congr
      intro a _
      by_cases hax : key a = x
      · have hxk : ¬x = k := fun hxe => hkn (hxe ▸ hx)
        simp [hax, hxk]
      · simp [hax]
    rw [hmap, hih]

theorem total_matched_flat (ja ra : List ScenarioResultRecord) :
    total_matched ja ra = ((ja.zip ra).filter (fun p => fMatched p.1 p.2)).length := by
  unfold total_matched level_keys levelMatched
  apply sum_keyed (ja.zip ra) (fun p => p.1.level)
  · exact List.nodup_dedup _
  · intro a ha _
    exact List.mem_dedup.mpr (List.mem_map_of_mem _ ha)

theorem total_examples_flat (ja ra : List ScenarioResultRecord) :
    total_examples ja ra = (ja.zip ra).length := by
  unfold total_examples level_keys levelCount
  have h1 : ∀ lv : Option Nat,
      ((ja.zip ra).filter (fun p => decide (p.1.level = lv))) =
        ((ja.zip ra).filter (fun p => decide (p.1.level = lv) && (fun _ => true) p)) := by
    intro lv
    apply List.filter_congr
    intro a _
    simp
  calc ((((ja.zip ra).map (fun p => p.1.level)).dedup).map
          (fun lv => ((ja.zip ra).filter (fun p => decide (p.1.level = lv))).length)).sum
      = ((((ja.zip ra).map (fun p => p.1.level)).dedup).map
          (fun lv => ((ja.zip ra).filter
            (fun p => decide (p.1.level = lv) && (fun _ => true) p)).length)).sum := by
        apply congrArg
        apply List.map_congr_left
        intro lv _
        rw [h1 lv]
    _ = ((ja.zip ra).filter (fun _ => true)).length := by
        apply sum_keyed (ja.zip ra) (fun p => p.1.level)
        · exact List.nodup_dedup _
        · intro a ha _
          exact List.mem_dedup.mpr (List.mem_map_of_mem _ ha)
    _ = (ja.zip ra).length := by simp

theorem fMatched_comm (a b : ScenarioResultRecord) : fMatched a b = fMatched b a := by
  unfold fMatched
  rw [abs_sub_comm]

theorem matchedPair_comm (a b : ScenarioResultRecord) :
    matchedPair a b = matchedPair b a := by
  unfold matchedPair
  rw [abs_sub_comm a.f_measure, abs_sub_comm a.precision, abs_sub_comm a.recall_val]

theorem flat_matched_comm (ja ra : List ScenarioResultRecord) :
    ((ja.zip ra).filter (fun p => fMatched p.1 p.2)).length =
      ((ra.zip ja).filter (fun p => fMatched p.1 p.2)).length := by
  rw [← List.zip_swap ja ra, List.filter_map, List.length_map]
  congr 1
  apply List.filter_congr
  intro p _
  simp [Function.comp, fMatched_comm]

theorem foldl_min_le_init : ∀ (t : List ℚ) (a : ℚ), t.foldl min a ≤ a := by
  intro t
  induction t with
  | nil => intro a; simp
  | cons b t ih =>
    intro a
    calc (b :: t).foldl min a = t.foldl min (min a b) := by simp [List.foldl_cons]
    _ ≤ min a b := ih (min a b)
    _ ≤ a := min_le_left a b

theorem foldl_min_le_mem : ∀ (t : List ℚ) (a x : ℚ), x ∈ t → t.foldl min a ≤ x := by
  intro t
  induction t with
  | nil => intro a x hx; exact absurd hx (List.not_mem_nil x)
  | cons b t ih =>
    intro a x hx
    rcases List.mem_cons.mp hx with h | h
    · subst h
      calc (x :: t).foldl min a = t.foldl min (min a x) := by simp [List.foldl_cons]
      _ ≤ min a x := foldl_min_le_init t (min a x)
      _ ≤ x := min_le_right a x
    · exact ih (min a b) x h

theorem pymin_le {l : List ℚ} {x : ℚ} (hx : x ∈ l) : pymin l ≤ x := by
  cases l with
  | nil => exact absurd hx (List.not_mem_nil x)
  | cons a t =>
    rcases List.mem_cons.mp hx with h | h
    · subst h; exact foldl_min_le_init t x
    · exact foldl_min_le_mem t a x h

theorem init_le_foldl_max : ∀ (t : List ℚ) (a : ℚ), a ≤ t.foldl max a := by
  intro t
  induction t with
  | nil => intro a; simp
  | cons b t ih =>
    intro a
    calc a ≤ max a b := le_max_left a b
    _ ≤ t.foldl max (max a b) := ih (max a b)
    _ = (b :: t).foldl max a := by simp [List.foldl_cons]

theorem mem_le_foldl_max : ∀ (t : List ℚ) (a x : ℚ), x ∈ t → x ≤ t.foldl max a := by
  intro t
  induction t with
  | nil => intro a x hx; exact absurd hx (List.not_mem_nil x)
  | cons b t ih =>
    intro a x hx
    rcases List.mem_cons.mp hx with h | h
    · subst h
      calc x ≤ max a x := le_max_right a x
      _ ≤ t.foldl max (max a x) := init_le_foldl_max t (max a x)
      _ = (x :: t).foldl max a := by simp [List.foldl_cons]
    · exact ih (max a b) x h

theorem le_pymax {l : List ℚ} {x : ℚ} (hx : x ∈ l) : x ≤ pymax l := by
  cases l with
  | nil => exact absurd hx (List.not_mem_nil x)
  | cons a t =>
    rcases List.mem_cons.mp hx with h | h
    · subst h; exact init_le_foldl_max t x
    · exact mem_le_foldl_max t a x h

theorem mul_length_le_sum (l : List ℚ) (m : ℚ) (h : ∀ x ∈ l, m ≤ x) :
    m * (l.length : ℚ) ≤ l.sum := by
  induction l with
  | nil => simp
  | cons a t ih =>
    have ha : m ≤ a := h a (List.mem_cons_self a t)
    have ht : m * (t.length : ℚ) ≤ t.sum := ih (fun x hx => h x (List.mem_cons_of_mem a hx))
    simp only [List.length_cons, List.sum_cons]
    push_cast
    linarith

theorem sum_le_mul_length (l : List ℚ) (m : ℚ) (h : ∀ x ∈ l, x ≤ m) :
    l.sum ≤ m * (l.length : ℚ) := by
  induction l with
  | nil => simp
  | cons a t ih =>
    have ha : a ≤ m := h a (List.mem_cons_self a t)
    have ht : t.sum ≤ m * (t.length : ℚ) := ih (fun x hx => h x (List.mem_cons_of_mem a hx))
    simp only [List.length_cons, List.sum_cons]
    push_cast
    linarith

theorem pymean_bounds (l : List ℚ) (h : l ≠ []) :
    pymin l ≤ pymean l ∧ pymean l ≤ pymax l := by
  have hn : 0 < (l.length : ℚ) := by
    have := List.length_pos.mpr h
    exact_mod_cast this
  constructor
  · rw [pymean, le_div_iff₀ hn]
    exact mul_length_le_sum l (pymin l) (fun x hx => pymin_le hx)
  · rw [pymean, div_le_iff₀ hn]
    exact sum_le_mul_length l (pymax l) (fun x hx => le_pymax hx)

theorem getD_mem : ∀ (l : List ℚ) (n : Nat), n < l.length → l.getD n 0 ∈ l := by
  intro l
  induction l with
  | nil => intro n hn; simp at hn
  | cons a t ih =>
    intro n hn
    cases n with
    | zero => simp
    | succ m =>
      simp only [List.getD_cons_succ]
      exact List.mem_cons_of_mem a (ih m (by simpa using hn))

theorem sortQ_mem {l : List ℚ} {x : ℚ} (hx : x ∈ sortQ l) : x ∈ l := by
  unfold sortQ at hx
  exact (List.mem_insertionSort (· ≤ ·)).mp hx

theorem sortQ_length (l : List ℚ) : (sortQ l).length = l.length :=
  List.length_insertionSort (· ≤ ·) l

theorem pymedian_bounds (l : List ℚ) (h : l ≠ []) :
    pymin l ≤ pymedian l ∧ pymedian l ≤ pymax l := by
  have hn : 0 < l.length := List.length_pos.mpr h
  have h2 : l.length / 2 < l.length := Nat.div_lt_self hn (by norm_num)
  have hmem2 : (sortQ l).getD (l.length / 2) 0 ∈ l :=
    sortQ_mem (getD_mem (sortQ l) (l.length / 2) (by rw [sortQ_length]; exact h2))
  have hmem1 : (sortQ l).getD (l.length / 2 - 1) 0 ∈ l :=
    sortQ_mem (getD_mem (sortQ l) (l.length / 2 - 1)
      (by rw [sortQ_length]; omega))
  unfold pymedian
  by_cases hodd : l.length % 2 = 1
  · simp only [hodd, if_true]
    exact ⟨pymin_le hmem2, le_pymax hmem2⟩
  · simp only [hodd, if_false]
    have b1 := pymin_le hmem1
    have b2 := pymin_le hmem2
    have b3 := le_pymax hmem1
    have b4 := le_pymax hmem2
    constructor <;> linarith

theorem scanFloats_no_dot : ∀ l : List Char, ('.' ∉ l) →
    scanFloats ScanMode.idle l = [] ∧ ∀ ip, scanFloats (ScanMode.intRun ip) l = [] := by
  intro l
  induction l with
  | nil => intro _; exact ⟨rfl, fun _ => rfl⟩
  | cons c rest ih =>
    intro h
    have hc : ¬c = '.' := fun he => h (he ▸ List.mem_cons_self c rest)
    have hrest : ('.' : Char) ∉ rest := fun hm => h (List.mem_cons_of_mem c hm)
    have ihr := ih hrest
    constructor
    · by_cases hd : c.isDigit = true
      · simp only [scanFloats, hd, if_true]
        exact ihr.2 _
      · simp only [scanFloats, hd, if_false]
        exact ihr.1
    · intro ip
      by_cases hd : c.isDigit = true
      · simp only [scanFloats, hd, if_true]
        exact ihr.2 _
      · simp only [scanFloats, hd, hc, if_false]
        exact ihr.1

theorem reachesResults_parts (l : List Char) (h : reachesResults l = true) :
    isLevelShape l = false ∧ isExampleShape l = false ∧ isCandShape l = false ∧
      isRefShape l = false ∧ isResultsShape l = true := by
  simp only [reachesResults, Bool.and_eq_true, Bool.not_eq_true'] at h
  exact ⟨h.1.1.1.1, h.1.1.1.2, h.1.1.2, h.1.2, h.2⟩

/-- C1 counterexample: an input in which two numeric-bearing results lines
occur for example 1 before any further example boundary; the extractor
emits two records (both attributed to example 1), not one record taken
from the first line. -/
theorem c1_counterexample :
    extract_results "Example 1:\nResult: 0.1 0.2 0.3\nResult: 0.4 0.5 0.6" =
      some [⟨some 1, none, none, none, none, 1/10, 1/5, 3/10⟩,
            ⟨some 1, none, none, none, none, 2/5, 1/2, 3/5⟩] := by
  with_unfolding_all rfl

/-- C1 (amended): the extractor emits exactly one record per
numeric-bearing results line; when several such lines occur before the
next example boundary, each of them emits a record, so the number of
records equals the number of qualifying results lines, not the number of
examples. -/
theorem c1_amended (s : String) (r : List ScenarioResultRecord)
    (h : extract_results s = some r) :
    r.length = ((pyLines s).filter qualifies).length := by
  unfold extract_results at h
  cases hrl : runLines initState (pyLines s) with
  | none => rw [hrl] at h; simp at h
  | some st2 =>
    rw [hrl] at h
    simp only [Option.map_some', Option.some.injEq] at h
    subst h
    have := runLines_results (pyLines s) initState st2 hrl
    simpa [initState] using this

/-- C1 witness: the amended count theorem evaluated on a concrete input
with one qualifying results line. -/
theorem c1_witness :
    ([⟨some 1, none, none, none, none, 1/10, 1/5, 3/10⟩] :
        List ScenarioResultRecord).length =
      ((pyLines "Example 1:\nResult: 0.1 0.2 0.3").filter qualifies).length :=
  c1_amended "Example 1:\nResult: 0.1 0.2 0.3"
    [⟨some 1, none, none, none, none, 1/10, 1/5, 3/10⟩]
    (by with_unfolding_all rfl)

/-- C2 counterexample: a pair whose f-measures agree but whose precisions
differ by 1; the per-pair classification says not matched, yet the rolled
up aggregate counts it as matched and reports a 100% overall match rate,
because the aggregate tests only the f-measure difference. -/
theorem c2_counterexample :
    matchedPair ⟨none, none, none, none, none, 1/2, 1, 1/2⟩
        ⟨none, none, none, none, none, 1/2, 0, 1/2⟩ = false ∧
    total_matched [⟨none, none, none, none, none, 1/2, 1, 1/2⟩]
        [⟨none, none, none, none, none, 1/2, 0, 1/2⟩] = 1 ∧
    overall_match_rate [⟨none, none, none, none, none, 1/2, 1, 1/2⟩]
        [⟨none, none, none, none, none, 1/2, 0, 1/2⟩] = 100 := by
  refine ⟨?_, ?_, ?_⟩ <;> with_unfolding_all rfl

/-- C2 (amended): the per-pair classification of `compare_results` tests
all three absolute differences against the strict 1e-4 tolerance, but the
matched counts rolled up into the per-level aggregates of `main` count
exactly the pairs whose f-measure difference is below the tolerance,
ignoring precision and recall. -/
theorem c2_amended :
    (∀ a b : ScenarioResultRecord, matchedPair a b = true ↔
      |a.f_measure - b.f_measure| < tol ∧ |a.precision - b.precision| < tol ∧
        |a.recall_val - b.recall_val| < tol) ∧
    (∀ a b : ScenarioResultRecord,
      fMatched a b = true ↔ |a.f_measure - b.f_measure| < tol) ∧
    (∀ ja ra : List ScenarioResultRecord,
      total_matched ja ra =
        ((ja.zip ra).filter (fun p => fMatched p.1 p.2)).length) := by
  refine ⟨?_, ?_, total_matched_flat⟩
  · intro a b
    simp [matchedPair, and_assoc]
  · intro a b
    simp [fMatched]

/-- C3 counterexample: on the end-to-end input of the claim, the extractor
does not produce the claimed record with level name "Basic Text": the
captured group runs to the end of the line and `strip` removes only
whitespace, so the trailing dashes stay in the level name. -/
theorem c3_counterexample :
    extract_results "--- Level 1: Basic Text ---\nExample 1:\nCandidate: the cat sat\nReference: the cat sat on the mat\nF-Measure: 0.6000, Precision: 1.0000, Recall: 0.4000" ≠
      some [⟨some 1, some 1, some "Basic Text".data, some "the cat sat".data,
             some "the cat sat on the mat".data, 3/5, 1, 2/5⟩] := by
  with_unfolding_all decide

/-- C3 (amended): the end-to-end input yields exactly one record with
level 1, example 1, f=0.6, p=1.0, r=0.4 and the candidate/reference
snippets as claimed, but the extracted level name is "Basic Text ---"
(with the trailing dash decoration), not "Basic Text". -/
theorem c3_amended :
    extract_results "--- Level 1: Basic Text ---\nExample 1:\nCandidate: the cat sat\nReference: the cat sat on the mat\nF-Measure: 0.6000, Precision: 1.0000, Recall: 0.4000" =
      some [⟨some 1, some 1, some "Basic Text ---".data, some "the cat sat".data,
             some "the cat sat on the mat".data, 3/5, 1, 2/5⟩] := by
  with_unfolding_all rfl

/-- C4 counterexample: a results-bearing line (`Result: 0.7`) in which no
full numeric triple can be located is silently skipped: extraction
succeeds, and the output is identical to the output on the same text with
the line deleted, so no warning or failure surfaces. -/
theorem c4_counterexample :
    extract_results "Example 2:\nResult: 0.7\nF-Measure: 0.7, Precision: 0.8, Recall: 0.9" =
      extract_results "Example 2:\nF-Measure: 0.7, Precision: 0.8, Recall: 0.9" ∧
    (extract_results "Example 2:\nResult: 0.7\nF-Measure: 0.7, Precision: 0.8, Recall: 0.9").isSome
      = true := by
  constructor <;> with_unfolding_all rfl

/-- C4 (amended): a line that reaches the results branch but yields fewer
than three decimal numbers leaves the extractor state completely
unchanged — the line is silently skipped, with no record, no state change
and no failure. -/
theorem c4_amended (st : ExtractState) (l : List Char)
    (h1 : reachesResults l = true) (h2 : (findFloats l).length < 3) :
    processLine st l = some st := by
  obtain ⟨hl, he, hc, hr, hres⟩ := reachesResults_parts l h1
  unfold processLine
  rw [hl, he, hc, hr, hres]
  simp only [Bool.false_eq_true, if_false, if_true]
  rcases hf : findFloats l with _ | ⟨a, _ | ⟨b, _ | ⟨c, t⟩⟩⟩
  · rfl
  · rfl
  · rfl
  · exfalso
    rw [hf] at h2
    simp only [List.length_cons] at h2
    omega

/-- C4 witness: the amended theorem evaluated on a concrete gap line. -/
theorem c4_witness : processLine initState ("Result: 0.5".data) = some initState :=
  c4_amended initState ("Result: 0.5".data) (by with_unfolding_all rfl)
    (by with_unfolding_all decide)

/-- C5 counterexample: on sequences of differing length the comparator
performs no per-index comparison, but it reports no structural-mismatch
condition either: it returns `([], [])`, the very same value it returns
for a successful comparison of two empty sequences, so the mismatch is
indistinguishable from an empty success in everything it reports. -/
theorem c5_counterexample :
    compare_results [⟨none, none, none, none, none, 1, 1, 1⟩] [] = ([], []) ∧
    compare_results [] [] = ([], []) ∧
    compareClassifications [⟨none, none, none, none, none, 1, 1, 1⟩] [] = none := by
  refine ⟨?_, ?_, ?_⟩ <;> with_unfolding_all rfl

/-- C5 (amended): when the two extracted sequences differ in length, no
per-index comparison is performed (no truncated prefix is compared) and
the comparison returns the empty pair `([], [])` silently, without any
explicit structural-mismatch report; the performance statistics, computed
from the timing samples before the comparison phase, are unaffected. -/
theorem c5_amended (ja ra : List ScenarioResultRecord) (h : ja.length ≠ ra.length) :
    compareClassifications ja ra = none ∧
    compare_results ja ra = ([], []) ∧
    (∀ jt rt : List ℚ, (mainPerfAndComparison jt rt ja ra).1 =
      (print_statistics jt, print_statistics rt)) := by
  refine ⟨?_, ?_, fun jt rt => rfl⟩
  · simp [compareClassifications, h]
  · simp [compare_results, h]

/-- C5 witness: the amended theorem evaluated on a concrete length-one
versus length-zero pair of sequences. -/
theorem c5_witness :
    compareClassifications [⟨none, none, none, none, none, 0, 0, 0⟩] [] = none ∧
    compare_results [⟨none, none, none, none, none, 0, 0, 0⟩] [] = ([], []) ∧
    (∀ jt rt : List ℚ,
      (mainPerfAndComparison jt rt [⟨none, none, none, none, none, 0, 0, 0⟩] []).1 =
        (print_statistics jt, print_statistics rt)) :=
  c5_amended [⟨none, none, none, none, none, 0, 0, 0⟩] [] (by simp)

/-- C6: on an empty sample sequence the aggregator reports the explicit
no-data state (`none`) rather than any numeric placeholder, and on a
single-element sequence it reports count, mean, median, min and max while
leaving the standard deviation absent. -/
theorem c6_theorem :
    print_statistics [] = none ∧
    ∀ x : ℚ, print_statistics [x] = some ⟨1, x, x, x, x, none⟩ := by
  constructor
  · rfl
  · intro x
    unfold print_statistics
    simp [pymean, pymedian, sortQ, pymin, pymax, List.insertionSort, List.orderedInsert]

/-- C7 counterexample: extraction is not total — a line starting with
"Example" whose second whitespace token is not an integer makes the
Python code raise (modelled as `none`), so the extractor can fail instead
of falling back to null context fields. -/
theorem c7_counterexample : extract_results "Examples are great" = none := by
  with_unfolding_all rfl

/-- C7 (amended): the extractor tolerates extra whitespace, truncation
markers and absent level/example context (null fields), and it succeeds
on every input text in which each line reaching the `Example` branch has
a second whitespace token that parses as an integer after stripping
trailing colons; on a line violating that condition it raises instead. -/
theorem c7_amended (s : String)
    (h : ∀ l ∈ pyLines s, reachesExample l = true → exampleOk l = true) :
    (extract_results s).isSome = true := by
  unfold extract_results
  have hsome := runLines_some (pyLines s) initState h
  cases hr : runLines initState (pyLines s) with
  | none => rw [hr] at hsome; simp at hsome
  | some st => simp

/-- C7 witness: the amended theorem evaluated on a concrete input whose
only Example line is well formed. -/
theorem c7_witness :
    (extract_results "Example 3:\nF-Measure: 0.2, Precision: 0.3, Recall: 0.4").isSome
      = true :=
  c7_amended "Example 3:\nF-Measure: 0.2, Precision: 0.3, Recall: 0.4"
    (by with_unfolding_all decide)

/-- C8: for at least two samples, the reported statistics satisfy
min ≤ median ≤ max and min ≤ mean ≤ max. -/
theorem c8_theorem (l : List ℚ) (st : PerfStats) (h2 : 2 ≤ l.length)
    (h : print_statistics l = some st) :
    st.min ≤ st.median ∧ st.median ≤ st.max ∧ st.min ≤ st.mean ∧ st.mean ≤ st.max := by
  have hne : l ≠ [] := by
    intro he; subst he; simp at h2
  have hie : l.isEmpty = false := by simp [hne]
  unfold print_statistics at h
  rw [hie] at h
  simp only [Bool.false_eq_true, if_false, Option.some.injEq] at h
  subst h
  have hmd := pymedian_bounds l hne
  have hmn := pymean_bounds l hne
  exact ⟨hmd.1, hmd.2, hmn.1, hmn.2⟩

/-- C8 witness: the statistics theorem evaluated on the sample list
`[3, 1]`, whose reported statistics block is
count 2, mean 2, median 2, min 1, max 3, squared deviation 2. -/
theorem c8_witness :
    (⟨2, 2, 2, 1, 3, some 2⟩ : PerfStats).min ≤ (⟨2, 2, 2, 1, 3, some 2⟩ : PerfStats).median ∧
    (⟨2, 2, 2, 1, 3, some 2⟩ : PerfStats).median ≤ (⟨2, 2, 2, 1, 3, some 2⟩ : PerfStats).max ∧
    (⟨2, 2, 2, 1, 3, some 2⟩ : PerfStats).min ≤ (⟨2, 2, 2, 1, 3, some 2⟩ : PerfStats).mean ∧
    (⟨2, 2, 2, 1, 3, some 2⟩ : PerfStats).mean ≤ (⟨2, 2, 2, 1, 3, some 2⟩ : PerfStats).max :=
  c8_theorem [3, 1] ⟨2, 2, 2, 1, 3, some 2⟩ (by norm_num) (by with_unfolding_all rfl)

/-- C9: for equal-length sequences, swapping the two sides leaves both the
per-index matched classification and the overall match rate unchanged. -/
theorem c9_theorem (ja ra : List ScenarioResultRecord) (h : ja.length = ra.length) :
    compareClassifications ja ra = compareClassifications ra ja ∧
    overall_match_rate ja ra = overall_match_rate ra ja := by
  constructor
  · unfold compareClassifications
    rw [if_pos h, if_pos h.symm]
    congr 1
    rw [← List.zip_swap ja ra, List.map_map]
    apply List.map_congr_left
    intro p _
    exact matchedPair_comm p.1 p.2
  · unfold overall_match_rate
    rw [total_examples_flat, total_examples_flat, total_matched_flat, total_matched_flat,
        flat_matched_comm]
    have hlen : (ja.zip ra).length = (ra.zip ja).length := by
      rw [List.length_zip, List.length_zip, Nat.min_comm]
    rw [hlen]

/-- C9 witness: the symmetry theorem evaluated on two concrete
singleton sequences. -/
theorem c9_witness :
    compareClassifications [⟨none, some 1, none, none, none, 1, 1, 1⟩]
        [⟨none, some 2, none, none, none, 0, 1, 1⟩] =
      compareClassifications [⟨none, some 2, none, none, none, 0, 1, 1⟩]
        [⟨none, some 1, none, none, none, 1, 1, 1⟩] ∧
    overall_match_rate [⟨none, some 1, none, none, none, 1, 1, 1⟩]
        [⟨none, some 2, none, none, none, 0, 1, 1⟩] =
      overall_match_rate [⟨none, some 2, none, none, none, 0, 1, 1⟩]
        [⟨none, some 1, none, none, none, 1, 1, 1⟩] :=
  c9_theorem [⟨none, some 1, none, none, none, 1, 1, 1⟩]
    [⟨none, some 2, none, none, none, 0, 1, 1⟩] rfl

/-- C10 counterexample: a line carrying the "Result:" label and three
decimal numbers that nevertheless emits no record, because it also
contains "Level" and a colon and is therefore consumed by the earlier
level branch. -/
theorem c10_counterexample :
    isResultsShape ("Level Result: 0.1 0.2 0.3".data) = true ∧
    (findFloats ("Level Result: 0.1 0.2 0.3".data)).length = 3 ∧
    extract_results "Level Result: 0.1 0.2 0.3" = some [] := by
  refine ⟨?_, ?_, ?_⟩ <;> with_unfolding_all rfl

/-- C10 (amended): for lines that actually reach the results branch (they
carry a "Result:" or "F-Measure:" label and match none of the four
earlier shapes), a record is emitted exactly when the line yields at
least three decimal-point numbers, the first three in textual order
becoming the numeric triple with any further numbers ignored; digit runs
without a decimal point are never recognised as numbers. -/
theorem c10_amended :
    (∀ (st : ExtractState) (l : List Char) (a b c : ℚ) (rest : List ℚ),
      reachesResults l = true → findFloats l = a :: b :: c :: rest →
      processLine st l = some { st with
        results := st.results ++ [mkRecord st a b c],
        current_candidate := none, current_reference := none }) ∧
    (∀ (st : ExtractState) (l : List Char),
      reachesResults l = true → (findFloats l).length < 3 →
      processLine st l = some st) ∧
    (∀ l : List Char, ('.' ∉ l) → findFloats l = []) := by
  refine ⟨?_, ?_, ?_⟩
  · intro st l a b c rest hreach hf
    obtain ⟨hl, he, hc, hr, hres⟩ := reachesResults_parts l hreach
    unfold processLine
    rw [hl, he, hc, hr, hres]
    simp only [Bool.false_eq_true, if_false, if_true]
    rw [hf]
  · intro st l hreach h2
    obtain ⟨hl, he, hc, hr, hres⟩ := reachesResults_parts l hreach
    unfold processLine
    rw [hl, he, hc, hr, hres]
    simp only [Bool.false_eq_true, if_false, if_true]
    rcases hf : findFloats l with _ | ⟨a, _ | ⟨b, _ | ⟨c, t⟩⟩⟩
    · rfl
    · rfl
    · rfl
    · exfalso
      rw [hf] at h2
      simp only [List.length_cons] at h2
      omega
  · intro l hdot
    exact (scanFloats_no_dot l hdot).1

/-- C10 witness: the amended emission rule evaluated on a concrete
results line with exactly three decimal numbers. -/
theorem c10_witness :
    processLine initState ("Result: 0.1 0.2 0.3".data) =
      some { initState with
        results := initState.results ++ [mkRecord initState (1/10) (1/5) (3/10)],
        current_candidate := none, current_reference := none } :=
  c10_amended.1 initState ("Result: 0.1 0.2 0.3".data) (1/10) (1/5) (3/10) []
    (by with_unfolding_all rfl) (by with_unfolding_all rfl)

end RougeCompare
